/-
Verification of the BicycleDataProcessor core against its specification.

The Python sources (`bicycledataprocessor/main.py` and the legacy
`DataProcessor.py`) are shallowly embedded below: numeric samples and
timestamps become rationals, numpy arrays become lists, dictionaries become
association lists, and raised exceptions become `Except`/`Option` results.
Each definition is translated directly from the corresponding Python
function; theorems then settle the specification claims.
-/

import Mathlib

namespace BicycleDataProcessor

/-! ### Calibration store (`Sensor.get_data_for_date`)

A calibration record corresponds to one row of the calibration table kept in
`Sensor.data` (`main.py`, `Sensor.__init__`).  Timestamps are rationals (the
Python code compares `datetime` objects, which are totally ordered). -/

structure CalibRecord where
  calibrationID : Nat
  timeStamp : ℚ
  slope : ℚ
  bias : ℚ
  offset : ℚ
  calibrationSupplyVoltage : ℚ
  /-- the calibrated signal name stored in the record (`calibData['signal']`) -/
  signal : String
  units : String
  deriving Repr, DecidableEq

/-- Descending-by-timestamp comparison used by
`dateIdPairs.sort(key=lambda x: x[1], reverse=True)`. -/
def moreRecent (a b : CalibRecord) : Prop := b.timeStamp ≤ a.timeStamp

instance : DecidableRel moreRecent := fun a b =>
  inferInstanceAs (Decidable (b.timeStamp ≤ a.timeStamp))

/-- The loop
`for i, pair in enumerate(dateIdPairs): if runDate >= pair[1]: break`
followed by `return self.data[dateIdPairs[i][0]]`: the first record whose
timestamp is `≤ runDate` is returned; when no record qualifies the loop
falls through with `i` at the last index, so the last record is returned. -/
def pickFirstAtOrBefore (runDate : ℚ) : List CalibRecord → Option CalibRecord
  | [] => none
  | [r] => some r
  | r :: s :: rest =>
      if r.timeStamp ≤ runDate then some r
      else pickFirstAtOrBefore runDate (s :: rest)

/-- `Sensor.get_data_for_date(runDate)` (`main.py` lines 507–541 and the
identical `DataProcessor.py` lines 458–492): sort the records most recent
first (Python's stable sort; `insertionSort` is likewise stable) and scan
for the first record at or before `runDate`.  `none` models the `NameError`
that the Python loop variable would raise on an empty record list — the
`Sensor` constructor guarantees at least one record. -/
def get_data_for_date (records : List CalibRecord) (runDate : ℚ) :
    Option CalibRecord :=
  pickFirstAtOrBefore runDate (records.insertionSort moreRecent)

instance : IsTotal CalibRecord moreRecent :=
  ⟨fun a b => le_total b.timeStamp a.timeStamp⟩

instance : IsTrans CalibRecord moreRecent :=
  ⟨fun _ _ _ hab hbc => le_trans hbc hab⟩

/-- On a list sorted most-recent-first, the scan returns the first (hence
largest-timestamp) record at or before the query date, provided one exists. -/
lemma pickFirstAtOrBefore_spec (d : ℚ) :
    ∀ L : List CalibRecord, L.Sorted moreRecent →
      (∃ r ∈ L, r.timeStamp ≤ d) →
      ∃ r, pickFirstAtOrBefore d L = some r ∧ r ∈ L ∧ r.timeStamp ≤ d ∧
        ∀ r' ∈ L, r'.timeStamp ≤ d → r'.timeStamp ≤ r.timeStamp
  | [], _, hex => absurd hex (by simp)
  | [r], _, hex => by
      obtain ⟨r', hr', hle⟩ := hex
      simp only [List.mem_singleton] at hr'
      subst hr'
      exact ⟨r', by simp [pickFirstAtOrBefore, hle]⟩
  | r :: s :: rest, hsorted, hex => by
      rw [List.sorted_cons] at hsorted
      by_cases hr : r.timeStamp ≤ d
      · refine ⟨r, by simp [pickFirstAtOrBefore, hr], by simp, hr, ?_⟩
        intro r' hr' _
        rcases List.mem_cons.mp hr' with h | h
        · exact le_of_eq (by rw [h])
        · exact hsorted.1 r' h
      · have hex' : ∃ x ∈ s :: rest, x.timeStamp ≤ d := by
          obtain ⟨r', hr', hle⟩ := hex
          rcases List.mem_cons.mp hr' with h | h
          · exact absurd (h ▸ hle) hr
          · exact ⟨r', h, hle⟩
        obtain ⟨x, hpick, hmem, hxle, hmax⟩ :=
          pickFirstAtOrBefore_spec d (s :: rest) hsorted.2 hex'
        refine ⟨x, by simpa [pickFirstAtOrBefore, hr] using hpick,
          List.mem_cons_of_mem _ hmem, hxle, ?_⟩
        intro r' hr' hle
        rcases List.mem_cons.mp hr' with h | h
        · exact absurd (h ▸ hle) hr
        · exact hmax r' h hle

/-- On a nonempty sorted list none of whose records is at or before the query
date, the loop falls through and returns the last — i.e. oldest — record. -/
lemma pickFirstAtOrBefore_fallthrough (d : ℚ) :
    ∀ L : List CalibRecord, L.Sorted moreRecent → L ≠ [] →
      (∀ r ∈ L, d < r.timeStamp) →
      ∃ r, pickFirstAtOrBefore d L = some r ∧ r ∈ L ∧
        ∀ r' ∈ L, r.timeStamp ≤ r'.timeStamp
  | [], _, hne, _ => absurd rfl hne
  | [r], _, _, _ => ⟨r, rfl, by simp, by simp⟩
  | r :: s :: rest, hsorted, _, hall => by
      rw [List.sorted_cons] at hsorted
      have hr : ¬ r.timeStamp ≤ d := not_le.mpr (hall r (by simp))
      obtain ⟨x, hpick, hmem, hmin⟩ :=
        pickFirstAtOrBefore_fallthrough d (s :: rest) hsorted.2 (by simp)
          (fun r' h => hall r' (List.mem_cons_of_mem _ h))
      refine ⟨x, by simpa [pickFirstAtOrBefore, hr] using hpick,
        List.mem_cons_of_mem _ hmem, ?_⟩
      intro r' hr'
      rcases List.mem_cons.mp hr' with h | h
      · exact h ▸ hsorted.1 x hmem
      · exact hmin r' h

/-- **C1 (amended).**  For a sensor with at least one calibration record,
`Sensor.get_data_for_date` returns a record with the largest timestamp at or
before the run timestamp whenever such a record exists; but when *no* record
is at or before the run timestamp it does **not** fail: the scan loop falls
through and silently returns the record with the smallest (oldest)
timestamp.  (The claimed `NoCalibrationError` does not exist anywhere in the
code.) -/
theorem get_data_for_date_active_or_oldest
    (records : List CalibRecord) (d : ℚ) (hne : records ≠ []) :
    ((∃ r ∈ records, r.timeStamp ≤ d) →
      ∃ r, get_data_for_date records d = some r ∧ r ∈ records ∧
        r.timeStamp ≤ d ∧
        ∀ r' ∈ records, r'.timeStamp ≤ d → r'.timeStamp ≤ r.timeStamp) ∧
    ((∀ r ∈ records, d < r.timeStamp) →
      ∃ r, get_data_for_date records d = some r ∧ r ∈ records ∧
        ∀ r' ∈ records, r.timeStamp ≤ r'.timeStamp) := by
  have hperm := List.perm_insertionSort moreRecent records
  have hsorted := List.sorted_insertionSort moreRecent records
  constructor
  · intro hex
    obtain ⟨r, hrmem, hrle⟩ := hex
    obtain ⟨x, hpick, hmem, hxle, hmax⟩ :=
      pickFirstAtOrBefore_spec d _ hsorted
        ⟨r, hperm.mem_iff.mpr hrmem, hrle⟩
    exact ⟨x, hpick, hperm.mem_iff.mp hmem, hxle,
      fun r' hr' hle => hmax r' (hperm.mem_iff.mpr hr') hle⟩
  · intro hall
    obtain ⟨x, hpick, hmem, hmin⟩ :=
      pickFirstAtOrBefore_fallthrough d _ hsorted
        (by
          intro h
          apply hne
          have hlen := hperm.length_eq
          rw [h] at hlen
          exact List.length_eq_zero.mp hlen.symm)
        (fun r h => hall r (hperm.mem_iff.mp h))
    exact ⟨x, hpick, hperm.mem_iff.mp hmem,
      fun r' hr' => hmin r' (hperm.mem_iff.mpr hr')⟩

/-- Witness for `get_data_for_date_active_or_oldest`: three records at
timestamps 10 < 20 < 30; a query at 25 (= T2 + ε) selects the timestamp-20
record. -/
theorem get_data_for_date_active_or_oldest_witness :
    (get_data_for_date
        [⟨1, 10, 0, 0, 0, 0, "a", "u"⟩, ⟨2, 20, 0, 0, 0, 0, "b", "u"⟩,
          ⟨3, 30, 0, 0, 0, 0, "c", "u"⟩] (25 : ℚ) =
      some ⟨2, 20, 0, 0, 0, 0, "b", "u"⟩) ∧
    ∃ r, get_data_for_date
        [⟨1, 10, 0, 0, 0, 0, "a", "u"⟩, ⟨2, 20, 0, 0, 0, 0, "b", "u"⟩,
          ⟨3, 30, 0, 0, 0, 0, "c", "u"⟩] (25 : ℚ) = some r ∧
      r ∈ [⟨1, 10, 0, 0, 0, 0, "a", "u"⟩, ⟨2, 20, 0, 0, 0, 0, "b", "u"⟩,
          ⟨3, 30, 0, 0, 0, 0, "c", "u"⟩] ∧
      r.timeStamp ≤ 25 ∧
      ∀ r' ∈ [(⟨1, 10, 0, 0, 0, 0, "a", "u"⟩ : CalibRecord),
          ⟨2, 20, 0, 0, 0, 0, "b", "u"⟩, ⟨3, 30, 0, 0, 0, 0, "c", "u"⟩],
        r'.timeStamp ≤ 25 → r'.timeStamp ≤ r.timeStamp :=
  ⟨by decide,
    (get_data_for_date_active_or_oldest
      [⟨1, 10, 0, 0, 0, 0, "a", "u"⟩, ⟨2, 20, 0, 0, 0, 0, "b", "u"⟩,
        ⟨3, 30, 0, 0, 0, 0, "c", "u"⟩] (25 : ℚ) (by decide)).1 (by decide)⟩

/-- **C1 counterexample.**  With three records at timestamps 10 < 20 < 30, a
query below T1 does not fail (the claimed `NoCalibrationError`): the code
returns the oldest record (timestamp 10). -/
theorem get_data_for_date_below_T1_no_error :
    get_data_for_date
        [⟨1, 10, 0, 0, 0, 0, "a", "u"⟩, ⟨2, 20, 0, 0, 0, 0, "b", "u"⟩,
          ⟨3, 30, 0, 0, 0, 0, "c", "u"⟩] 0 =
      some ⟨1, 10, 0, 0, 0, 0, "a", "u"⟩ := by decide

/-! ### Raw-to-physical scaler (`RawSignal.scale`, `main.py` lines 390–450)

A raw signal carries its samples plus the metadata attributes that `scale`
reads (`calibrationType`, `name`, `supply`, `source`, `timeStamp`); the
sensor's calibration records are the `Sensor` attached to the raw signal. -/

structure RawSignalData where
  samples : List ℚ
  name : String
  units : String
  source : String
  calibrationType : String
  supply : ℚ
  timeStamp : ℚ
  deriving Repr, DecidableEq

/-- The result of `scale`: a plain `Signal` (samples plus the metadata the
method sets before returning). -/
structure ScaledSignal where
  samples : List ℚ
  name : String
  units : String
  source : String
  deriving Repr, DecidableEq

/-- The fixed exclusion list in `RawSignal.scale`. -/
def doNotScale : List String :=
  ["LeanPotentiometer", "HipPotentiometer", "TwistPotentiometer"]

/-- `RawSignal.scale` (`bicycledataprocessor/main.py` lines 390–450): pass
through for `none`/`matrix` kinds and excluded names; otherwise look up the
active calibration record and apply the equation selected by
`calibrationType`; unknown kinds raise `StandardError`. -/
def scale (raw : RawSignalData) (sensorRecords : List CalibRecord) :
    Except String ScaledSignal :=
  if raw.calibrationType = "none" ∨ raw.calibrationType = "matrix" ∨
      raw.name ∈ doNotScale then
    .ok ⟨raw.samples, raw.name, raw.units, raw.source⟩
  else
    match get_data_for_date sensorRecords raw.timeStamp with
    | none => .error "sensor has no calibration records"
    | some calibData =>
      if raw.calibrationType = "interceptStar" then
        .ok ⟨raw.samples.map (fun v =>
              calibData.calibrationSupplyVoltage / raw.supply *
                calibData.slope * v + calibData.offset),
            calibData.signal, calibData.units, raw.source⟩
      else if raw.calibrationType = "intercept" then
        .ok ⟨raw.samples.map (fun v =>
              calibData.calibrationSupplyVoltage / raw.supply *
                (calibData.slope * v + calibData.offset)),
            calibData.signal, calibData.units, raw.source⟩
      else if raw.calibrationType = "bias" then
        .ok ⟨raw.samples.map (fun v =>
              calibData.slope * (v - raw.supply /
                calibData.calibrationSupplyVoltage * calibData.bias)),
            calibData.signal, calibData.units, raw.source⟩
      else
        .error "None of the calibration equations worked."

/-- **C5.**  For a raw signal of calibration type `bias` whose name is not
in the exclusion list, `scale` returns sample-wise
`slope * (raw - supply / calibrationSupplyVoltage * bias)` where the
constants come from the active calibration record, and the output takes the
record's signal name and units while inheriting the raw channel's source. -/
theorem scale_bias_eq (raw : RawSignalData) (sensorRecords : List CalibRecord)
    (calibData : CalibRecord)
    (htype : raw.calibrationType = "bias")
    (hname : raw.name ∉ doNotScale)
    (hcal : get_data_for_date sensorRecords raw.timeStamp = some calibData) :
    scale raw sensorRecords =
      .ok ⟨raw.samples.map (fun v =>
            calibData.slope * (v - raw.supply /
              calibData.calibrationSupplyVoltage * calibData.bias)),
          calibData.signal, calibData.units, raw.source⟩ := by
  have h1 : ¬(raw.calibrationType = "none" ∨ raw.calibrationType = "matrix" ∨
      raw.name ∈ doNotScale) := by
    push_neg
    exact ⟨by rw [htype]; decide, by rw [htype]; decide, hname⟩
  have h2 : ¬ raw.calibrationType = "interceptStar" := by rw [htype]; decide
  have h3 : ¬ raw.calibrationType = "intercept" := by rw [htype]; decide
  simp only [scale, hcal, if_neg h1, if_neg h2, if_neg h3, if_pos htype]

/-- Witness for `scale_bias_eq` on a concrete raw channel and a single
calibration record. -/
theorem scale_bias_eq_witness :
    scale ⟨[1, 2], "SteerRateGyro", "volts", "NI", "bias", 5, 40⟩
        [⟨7, 10, 3, 2, 0, 10, "SteerRate", "degree/second"⟩] =
      .ok ⟨[(1 : ℚ), 2].map (fun v => 3 * (v - 5 / 10 * 2)),
          "SteerRate", "degree/second", "NI"⟩ :=
  scale_bias_eq ⟨[1, 2], "SteerRateGyro", "volts", "NI", "bias", 5, 40⟩
    [⟨7, 10, 3, 2, 0, 10, "SteerRate", "degree/second"⟩]
    ⟨7, 10, 3, 2, 0, 10, "SteerRate", "degree/second"⟩
    rfl (by decide) (by decide)

/-! ### Unit conversion (`Signal.convert_units`, `main.py` lines 171–204)

Samples are real numbers (the idealisation of the float arithmetic; the
spec asks for round-trips "within floating tolerance", which the real-number
embedding renders exact).  The conversion table is the class attribute
`Signal.conversions` (`main.py` lines 91–97). -/

structure SignalR where
  samples : List ℝ
  name : String
  runid : String
  sampleRate : ℚ
  source : String
  units : String

noncomputable def conversions : List (String × ℝ) :=
  [("degree->radian", Real.pi / 180),
   ("degree/second->radian/second", Real.pi / 180),
   ("degree/second/second->radian/second/second", Real.pi / 180),
   ("inch*pound->newton*meter", 25.4 / 1000 * 4.44822162),
   ("pound->newton", 4.44822162),
   ("feet/second->meter/second", 12 * 2.54 / 100),
   ("mile/hour->meter/second", 0.00254 * 12 / 5280 / 3600)]

/-- `Signal.convert_units(units)` (`main.py` lines 171–204): identity when
the target equals the current units; otherwise multiply every sample by the
registered factor for `self.units -> units`, or divide by the factor for the
reverse key, re-attach the metadata of `self` and relabel the units; raise
(`KeyError`) when neither key is registered. -/
noncomputable def convert_units (s : SignalR) (units : String) :
    Except String SignalR :=
  if units = s.units then .ok s
  else
    match conversions.lookup (s.units ++ "->" ++ units) with
    | some factor =>
        .ok { s with samples := s.samples.map (· * factor), units := units }
    | none =>
        match conversions.lookup (units ++ "->" ++ s.units) with
        | some factor =>
            .ok { s with
                    samples := s.samples.map (· / factor),
                    units := units }
        | none =>
            .error ("Conversion from " ++ s.units ++ " to " ++ units ++
              " is not possible or not defined.")

/-- **C6.**  `convert_units` is a no-op on equal units; multiplies sample-wise
by the registered factor for the forward key; divides by the factor when only
the reverse key is registered (relabelling units in both cases while keeping
the other metadata); and fails when neither key is registered. -/
theorem convert_units_cases (s : SignalR) (u : String) :
    (u = s.units → convert_units s u = .ok s) ∧
    (u ≠ s.units →
      ∀ f, conversions.lookup (s.units ++ "->" ++ u) = some f →
        convert_units s u =
          .ok { s with samples := s.samples.map (· * f), units := u }) ∧
    (u ≠ s.units → conversions.lookup (s.units ++ "->" ++ u) = none →
      ∀ f, conversions.lookup (u ++ "->" ++ s.units) = some f →
        convert_units s u =
          .ok { s with samples := s.samples.map (· / f), units := u }) ∧
    (u ≠ s.units → conversions.lookup (s.units ++ "->" ++ u) = none →
      conversions.lookup (u ++ "->" ++ s.units) = none →
      ∃ msg, convert_units s u = .error msg) := by
  refine ⟨fun h => by simp [convert_units, h], fun h f hf => ?_,
    fun h hfwd f hrev => ?_, fun h hfwd hrev => ?_⟩
  · simp only [convert_units]
    rw [if_neg h, hf]
  · simp only [convert_units]
    rw [if_neg h, hfwd, hrev]
  · refine ⟨"Conversion from " ++ s.units ++ " to " ++ u ++
      " is not possible or not defined.", ?_⟩
    simp only [convert_units]
    rw [if_neg h, hfwd, hrev]

/-- Witness for `convert_units_cases`: converting a one-sample signal from
pounds to newtons multiplies the sample by the registered factor. -/
theorem convert_units_cases_witness :
    convert_units ⟨[2], "PullForce", "00105", 200, "NI", "pound"⟩ "newton" =
      .ok ⟨[(2 : ℝ)].map (· * 4.44822162), "PullForce", "00105", 200, "NI",
        "newton"⟩ :=
  (convert_units_cases ⟨[2], "PullForce", "00105", 200, "NI", "pound"⟩
    "newton").2.1 (by decide) 4.44822162 rfl

/-- Round-trip helper: if `u1 -> u2` is registered with a nonzero factor and
`u2 -> u1` is not registered, converting a `u2` signal to `u1` and back
reproduces it exactly. -/
lemma roundtrip_of_lookup (u1 u2 : String) (f : ℝ) (hne : u1 ≠ u2)
    (h1 : conversions.lookup (u2 ++ "->" ++ u1) = none)
    (h2 : conversions.lookup (u1 ++ "->" ++ u2) = some f)
    (hf : f ≠ 0) (s : SignalR) (hu : s.units = u2) :
    (convert_units s u1).bind (fun s' => convert_units s' u2) = .ok s := by
  obtain ⟨samples, name, runid, rate, source, sunits⟩ := s
  simp only at hu
  subst hu
  have e1 : convert_units ⟨samples, name, runid, rate, source, sunits⟩ u1 =
      .ok ⟨samples.map (· / f), name, runid, rate, source, u1⟩ := by
    simp only [convert_units]
    rw [if_neg hne, h1, h2]
  have e2 : convert_units ⟨samples.map (· / f), name, runid, rate, source,
        u1⟩ sunits =
      .ok ⟨(samples.map (· / f)).map (· * f), name, runid, rate, source,
        sunits⟩ := by
    simp only [convert_units]
    rw [if_neg (Ne.symm hne), h2]
  rw [e1]
  show convert_units ⟨samples.map (· / f), name, runid, rate, source, u1⟩
      sunits = _
  rw [e2]
  have hmaps : (samples.map (· / f)).map (· * f) = samples := by
    rw [List.map_map]
    have hcomp : ((· * f) ∘ (· / f) : ℝ → ℝ) = id :=
      funext fun x => div_mul_cancel₀ x hf
    rw [hcomp, List.map_id]
  rw [hmaps]

/-- **C7.**  For each of the seven registered conversion pairs `(u1, u2)`,
converting a `u2`-signal to `u1` and back to `u2` reconstructs the original
signal exactly (real-number idealisation of "within floating tolerance"). -/
theorem convert_units_roundtrip (p : String × String)
    (hp : p ∈ [("degree", "radian"), ("degree/second", "radian/second"),
      ("degree/second/second", "radian/second/second"),
      ("inch*pound", "newton*meter"), ("pound", "newton"),
      ("feet/second", "meter/second"), ("mile/hour", "meter/second")])
    (s : SignalR) (hu : s.units = p.2) :
    (convert_units s p.1).bind (fun s' => convert_units s' p.2) = .ok s := by
  have hpi : Real.pi / 180 ≠ 0 := by positivity
  fin_cases hp
  · exact roundtrip_of_lookup "degree" "radian" (Real.pi / 180)
      (by decide) rfl rfl hpi s hu
  · exact roundtrip_of_lookup "degree/second" "radian/second" (Real.pi / 180)
      (by decide) rfl rfl hpi s hu
  · exact roundtrip_of_lookup "degree/second/second"
      "radian/second/second" (Real.pi / 180) (by decide) rfl rfl hpi s hu
  · exact roundtrip_of_lookup "inch*pound" "newton*meter"
      (25.4 / 1000 * 4.44822162) (by decide) rfl rfl (by norm_num) s hu
  · exact roundtrip_of_lookup "pound" "newton" 4.44822162
      (by decide) rfl rfl (by norm_num) s hu
  · exact roundtrip_of_lookup "feet/second" "meter/second" (12 * 2.54 / 100)
      (by decide) rfl rfl (by norm_num) s hu
  · exact roundtrip_of_lookup "mile/hour" "meter/second"
      (0.00254 * 12 / 5280 / 3600) (by decide) rfl rfl (by norm_num) s hu

/-- Witness for `convert_units_roundtrip` on the pound/newton pair. -/
theorem convert_units_roundtrip_witness :
    (convert_units ⟨[3], "PullForce", "00105", 200, "NI", "newton"⟩
        "pound").bind
      (fun s' => convert_units s' "newton") =
      .ok ⟨[3], "PullForce", "00105", 200, "NI", "newton"⟩ :=
  convert_units_roundtrip ("pound", "newton") (by decide)
    ⟨[3], "PullForce", "00105", 200, "NI", "newton"⟩ rfl

/-! ### Time-shift quality check (`Run.check_time_shift`, `main.py` 799–819)

`nrms = np.sqrt(np.mean((vnAcc + niAcc)**2)) / (niAcc.max() - niAcc.min())`
computed on the truncated-and-splined accelerometer signals, raising
`TimeShiftError` iff `nrms > maxNRMS`.  The method assigns no attributes, so
its only effect is the possible exception. -/

/-- `np.mean` of a nonempty vector. -/
def npMean (l : List ℚ) : ℚ := l.sum / l.length

/-- `np.max` / `ndarray.max()` of a nonempty vector. -/
def npMax : List ℚ → ℚ
  | [] => 0
  | x :: xs => xs.foldl max x

/-- `np.min` / `ndarray.min()` of a nonempty vector. -/
def npMin : List ℚ → ℚ
  | [] => 0
  | x :: xs => xs.foldl min x

/-- The condition under which `Run.check_time_shift(maxNRMS)` raises
`TimeShiftError`: the normalized root mean square
`sqrt(mean((vnAcc + niAcc)^2)) / (max(niAcc) - min(niAcc))` — a *sum* of the
two aligned signals, normalized by the NI signal's range only — exceeds the
caller-supplied threshold. -/
def raisesTimeShiftError (niAcc vnAcc : List ℚ) (maxNRMS : ℚ) : Prop :=
  Real.sqrt (npMean (((vnAcc.zipWith (· + ·) niAcc)).map (· ^ 2)) : ℚ) /
      ((npMax niAcc : ℚ) - (npMin niAcc : ℚ)) > (maxNRMS : ℝ)

/-- **C4.**  `check_time_shift` raises `TimeShiftError` exactly when
`sqrt(mean((vnAcc + niAcc)^2)) / (max(niAcc) - min(niAcc))` exceeds the
threshold; equivalently (range positive, threshold nonnegative), exactly
when the mean square of the summed signals exceeds
`maxNRMS² · range(niAcc)²`.  No state is changed either way: the method
writes no attributes, so the exception is its only effect. -/
theorem check_time_shift_raises_iff (niAcc vnAcc : List ℚ) (maxNRMS : ℚ)
    (hrange : npMin niAcc < npMax niAcc) (hmax : 0 ≤ maxNRMS) :
    raisesTimeShiftError niAcc vnAcc maxNRMS ↔
      npMean ((vnAcc.zipWith (· + ·) niAcc).map (· ^ 2)) >
        maxNRMS ^ 2 * (npMax niAcc - npMin niAcc) ^ 2 := by
  unfold raisesTimeShiftError
  have hR : (0 : ℝ) < (npMax niAcc : ℚ) - (npMin niAcc : ℚ) :=
    sub_pos.mpr (by exact_mod_cast hrange)
  rw [gt_iff_lt, lt_div_iff₀ hR]
  have hcR : (0 : ℝ) ≤ (maxNRMS : ℚ) * ((npMax niAcc : ℚ) - (npMin niAcc : ℚ)) :=
    mul_nonneg (by exact_mod_cast hmax) hR.le
  rw [show ((maxNRMS : ℚ) : ℝ) * ((npMax niAcc : ℚ) - (npMin niAcc : ℚ)) =
      ((maxNRMS * (npMax niAcc - npMin niAcc) : ℚ) : ℝ) by push_cast; ring]
  rw [Real.lt_sqrt (by exact_mod_cast hcR)]
  rw [show (((maxNRMS * (npMax niAcc - npMin niAcc) : ℚ) : ℝ)) ^ 2 =
      ((maxNRMS ^ 2 * (npMax niAcc - npMin niAcc) ^ 2 : ℚ) : ℝ) by
    push_cast; ring]
  exact_mod_cast Iff.rfl

/-- Witness for `check_time_shift_raises_iff`: with NI samples `[0, 2]`,
VN samples `[0, 0]` and threshold `1/2` the mean square `2` exceeds
`(1/2)² · 2² = 1`, so the check raises. -/
theorem check_time_shift_raises_iff_witness :
    raisesTimeShiftError [0, 2] [0, 0] (1/2) :=
  (check_time_shift_raises_iff [0, 2] [0, 0] (1/2)
    (by norm_num [npMin, npMax]) (by norm_num)).mpr
    (by norm_num [npMean, npMax, npMin, List.zipWith])

/-! ### Time-shift search (`find_timeshift`, `DataProcessor.py` 1078–1186)

The tail of `find_timeshift` after the error landscape is built:
`tauRange = np.linspace(0., .5, num=500)`, `tau0 = tauRange[np.argmin(error)]`
with `error[i] = sync_error(tauRange[i], ...)` (abstracted as an error
function `e` on candidate shifts), the guess-override, the local `fmin`
refinement (abstracted by its result, a value the minimizer may return),
and the discard-if-too-far guard. -/

/-- `np.linspace(a, b, num)`: `num` evenly spaced points from `a` to `b`. -/
def linspace (a b : ℚ) (num : Nat) : List ℚ :=
  (List.range num).map (fun (i : Nat) => a + (b - a) * (i : ℚ) / ((num : ℚ) - 1))

/-- Fold for `np.argmin`: carries the current position and the best
(index, value) pair; a strictly smaller value replaces the best, so the
first occurrence of the minimum wins, as in numpy. -/
def npArgminAux : List ℚ → Nat → Nat × ℚ → Nat × ℚ
  | [], _, best => best
  | x :: xs, i, best =>
      npArgminAux xs (i + 1) (if x < best.2 then (i, x) else best)

/-- `np.argmin`: index of the first occurrence of the minimum. -/
def npArgmin : List ℚ → Nat
  | [] => 0
  | x :: xs => (npArgminAux xs 1 (0, x)).1

/-- `tau0 = tauRange[np.argmin(error)]` where
`error = [sync_error(v, ...) for v in tauRange]` is abstracted by the error
function `e`. -/
def gridSearchTau0 (e : ℚ → ℚ) : ℚ :=
  (linspace 0 (1/2) 500).getD
    (npArgmin ((linspace 0 (1/2) 500).map e)) 0

/-- The seed handed to the minimizer: `find_timeshift` replaces the grid
argmin with the bump-index `guess` when `isInRange` (`0 < guess < 1`) holds
and `isCloseToTau` (`guess - .1 < tau0 < guess + .1`) fails.  (`isNone`
(`guess == None`) is always false: `guess` is a float.) -/
def chooseTau0 (e : ℚ → ℚ) (guess : ℚ) : ℚ :=
  if (0 < guess ∧ guess < 1) ∧
      ¬(guess - 1/10 < gridSearchTau0 e ∧ gridSearchTau0 e < guess + 1/10)
  then guess
  else gridSearchTau0 e

/-- The value `find_timeshift` returns, given the minimizer's output
`fminResult`: the refinement is discarded in favour of the seed when it
moved by more than `0.01`. -/
def find_timeshift_result (e : ℚ → ℚ) (guess fminResult : ℚ) : ℚ :=
  if |fminResult - chooseTau0 e guess| > 1/100 then chooseTau0 e guess
  else fminResult

lemma npArgminAux_min :
    ∀ (xs : List ℚ) (i : Nat) (best : Nat × ℚ),
      (npArgminAux xs i best).2 ≤ best.2 ∧
        ∀ y ∈ xs, (npArgminAux xs i best).2 ≤ y
  | [], _, _ => ⟨le_refl _, by simp⟩
  | x :: xs, i, best => by
      rw [npArgminAux]
      have hb : (if x < best.2 then (i, x) else best).2 ≤ best.2 ∧
          (if x < best.2 then (i, x) else best).2 ≤ x := by
        split
        · exact ⟨le_of_lt (by assumption), le_refl x⟩
        · exact ⟨le_refl _, le_of_not_lt (by assumption)⟩
      obtain ⟨ih1, ih2⟩ :=
        npArgminAux_min xs (i + 1) (if x < best.2 then (i, x) else best)
      refine ⟨le_trans ih1 hb.1, ?_⟩
      intro y hy
      rcases List.mem_cons.mp hy with h | h
      · rw [h]
        exact le_trans ih1 hb.2
      · exact ih2 y h

lemma npArgminAux_getD (l : List ℚ) :
    ∀ (xs : List ℚ) (i : Nat) (best : Nat × ℚ),
      l.drop i = xs → best.1 < l.length → l.getD best.1 0 = best.2 →
      (npArgminAux xs i best).1 < l.length ∧
        l.getD (npArgminAux xs i best).1 0 = (npArgminAux xs i best).2
  | [], _, best, _, h1, h2 => ⟨h1, h2⟩
  | x :: xs, i, best, hdrop, h1, h2 => by
      rw [npArgminAux]
      have hi : i < l.length := by
        by_contra hcon
        rw [List.drop_eq_nil_of_le (le_of_not_lt hcon)] at hdrop
        exact List.cons_ne_nil x xs hdrop.symm
      have hx : l.getD i 0 = x := by
        have h0 : l[i]? = some x := by
          have hdg := List.getElem?_drop l i 0
          rw [hdrop] at hdg
          simpa using hdg.symm
        simp [List.getD_eq_getElem?_getD, h0]
      have hdrop' : l.drop (i + 1) = xs := by
        have hdd : l.drop (i + 1) = (l.drop i).drop 1 := by
          rw [List.drop_drop]
        rw [hdd, hdrop, List.drop_one, List.tail_cons]
      refine npArgminAux_getD l xs (i + 1) _ hdrop' ?_ ?_
      · split
        · exact hi
        · exact h1
      · split
        · exact hx
        · exact h2

/-- The grid value at the argmin index minimizes `e` over the grid. -/
lemma gridSearchTau0_min (e : ℚ → ℚ) :
    ∀ t ∈ linspace 0 (1/2) 500, e (gridSearchTau0 e) ≤ e t := by
  intro t ht
  set L := linspace 0 (1/2) 500 with hL
  have hlen : L.length = 500 := by
    rw [hL, linspace, List.length_map, List.length_range]
  obtain ⟨x, xs, hcons⟩ : ∃ x xs, L.map e = x :: xs := by
    cases hml : L.map e with
    | nil =>
        have : L.length = 0 := by simpa using congrArg List.length hml
        omega
    | cons x xs => exact ⟨x, xs, rfl⟩
  have hx0 : (L.map e).getD 0 0 = x := by rw [hcons]; rfl
  have hspec := npArgminAux_getD (L.map e) xs 1 (0, x)
    (by rw [hcons]; rfl)
    (by simp [hcons])
    (by simpa using hx0)
  have hmin := npArgminAux_min xs 1 (0, x)
  have hidx : npArgmin (L.map e) = (npArgminAux xs 1 (0, x)).1 := by
    rw [hcons, npArgmin]
  have hlt : npArgmin (L.map e) < L.length := by
    rw [hidx]
    simpa using hspec.1
  have hval : (L.map e).getD (npArgmin (L.map e)) 0 =
      (npArgminAux xs 1 (0, x)).2 := by
    rw [hidx]
    exact hspec.2
  have hgrid : gridSearchTau0 e = L.getD (npArgmin (L.map e)) 0 := rfl
  have hgetd : e (L.getD (npArgmin (L.map e)) 0) =
      (L.map e).getD (npArgmin (L.map e)) 0 := by
    rw [List.getD_eq_getElem L 0 hlt,
      List.getD_eq_getElem (L.map e) 0 (by simpa using hlt)]
    simp
  rw [hgrid, hgetd, hval]
  have hmem : e t ∈ L.map e := List.mem_map_of_mem e ht
  rw [hcons] at hmem
  rcases List.mem_cons.mp hmem with h | h
  · rw [h]
    exact hmin.1
  · exact hmin.2 _ h

/-- **C2.**  `find_timeshift` returns a value within 0.01 s of its chosen
seed: the seed minimizes the error over the 500-point grid on [0, 0.5],
is replaced by the bump-index guess exactly when `0 < guess < 1` and the
grid argmin lies outside `(guess - 0.1, guess + 0.1)`, and a minimizer
result farther than 0.01 s from the seed is discarded in favour of the
seed. -/
theorem find_timeshift_within_seed (e : ℚ → ℚ) (guess fminResult : ℚ) :
    |find_timeshift_result e guess fminResult - chooseTau0 e guess| ≤ 1/100 ∧
    (|fminResult - chooseTau0 e guess| > 1/100 →
      find_timeshift_result e guess fminResult = chooseTau0 e guess) ∧
    (∀ t ∈ linspace 0 (1/2) 500, e (gridSearchTau0 e) ≤ e t) ∧
    (((0 < guess ∧ guess < 1) ∧
        ¬(guess - 1/10 < gridSearchTau0 e ∧
          gridSearchTau0 e < guess + 1/10)) →
      chooseTau0 e guess = guess) ∧
    (¬((0 < guess ∧ guess < 1) ∧
        ¬(guess - 1/10 < gridSearchTau0 e ∧
          gridSearchTau0 e < guess + 1/10)) →
      chooseTau0 e guess = gridSearchTau0 e) := by
  refine ⟨?_, ?_, gridSearchTau0_min e, ?_, ?_⟩
  · rw [find_timeshift_result]
    split
    · simp
    · exact le_of_not_lt (by assumption)
  · intro h
    rw [find_timeshift_result, if_pos h]
  · intro h
    rw [chooseTau0, if_pos h]
  · intro h
    rw [chooseTau0, if_neg h]

lemma zero_mem_linspace : (0 : ℚ) ∈ linspace 0 (1/2) 500 := by
  rw [linspace]
  exact List.mem_map.mpr ⟨0, List.mem_range.mpr (by norm_num), by norm_num⟩

lemma linspace_nonneg : ∀ t ∈ linspace 0 (1/2) 500, 0 ≤ t := by
  intro t ht
  rw [linspace] at ht
  obtain ⟨i, _, rfl⟩ := List.mem_map.mp ht
  positivity

lemma npArgmin_lt_length (l : List ℚ) (h : l ≠ []) : npArgmin l < l.length := by
  obtain ⟨x, xs, rfl⟩ := List.exists_cons_of_ne_nil h
  rw [npArgmin]
  exact (npArgminAux_getD (x :: xs) xs 1 (0, x) rfl (by simp) rfl).1

lemma gridSearchTau0_mem (e : ℚ → ℚ) :
    gridSearchTau0 e ∈ linspace 0 (1/2) 500 := by
  have hlen : (linspace 0 (1/2) 500).length = 500 := by
    rw [linspace, List.length_map, List.length_range]
  have hne : (linspace 0 (1/2) 500).map e ≠ [] := by
    intro h
    have hc := congrArg List.length h
    rw [List.length_map, hlen] at hc
    simp at hc
  have hlt := npArgmin_lt_length _ hne
  rw [List.length_map] at hlt
  rw [gridSearchTau0, List.getD_eq_getElem _ _ hlt]
  exact List.getElem_mem hlt

/-- Witness for `find_timeshift_within_seed` at the identity error function
(grid argmin 0), exercising the guess-override in both directions and the
refinement-discard guard. -/
theorem find_timeshift_within_seed_witness :
    gridSearchTau0 (fun t => t) ≤ 0 ∧
    chooseTau0 (fun t => t) 2 = gridSearchTau0 (fun t => t) ∧
    chooseTau0 (fun t => t) (1/4) = 1/4 ∧
    find_timeshift_result (fun t => t) 2 1 = chooseTau0 (fun t => t) 2 ∧
    |find_timeshift_result (fun t => t) 2 1 - chooseTau0 (fun t => t) 2| ≤
      1/100 := by
  have hid := find_timeshift_within_seed (fun t => t) 2 1
  have hid4 := find_timeshift_within_seed (fun t => t) (1/4) 1
  have hgle : gridSearchTau0 (fun t : ℚ => t) ≤ 0 :=
    hid.2.2.1 0 zero_mem_linspace
  have hge : 0 ≤ gridSearchTau0 (fun t : ℚ => t) :=
    linspace_nonneg _ (gridSearchTau0_mem _)
  have hgrid0 : gridSearchTau0 (fun t : ℚ => t) = 0 := le_antisymm hgle hge
  have hc2 : chooseTau0 (fun t => t) 2 = gridSearchTau0 (fun t => t) :=
    hid.2.2.2.2 (by rw [hgrid0]; norm_num)
  have hc4 : chooseTau0 (fun t => t) (1/4) = 1/4 :=
    hid4.2.2.2.1 ⟨⟨by norm_num, by norm_num⟩, by rw [hgrid0]; norm_num⟩
  have hres : find_timeshift_result (fun t => t) 2 1 =
      chooseTau0 (fun t => t) 2 :=
    hid.2.1 (by rw [hc2, hgrid0]; norm_num)
  exact ⟨hgle, hc2, hc4, hres, hid.1⟩

/-! ### Truncation and synchronization error
(`truncate_data`, `DataProcessor.py` 964–999; `sync_error`, 1027–1076)

`time_vector` itself lives in the repository's `signalprocessing` module,
which is not among the provided sources; it is modelled from the spec. -/

/-- Modelled from the spec: `time_vector(n, sampleRate)` — the repository's
`signalprocessing.time_vector` is not among the provided sources; per the
spec, "a Signal over n samples at rate r has time stamps `t_i = i / r` for
i in [0, n)". -/
def time_vector (n : Nat) (sampleRate : ℚ) : List ℚ :=
  (List.range n).map (fun (i : Nat) => (i : ℚ) / sampleRate)

/-- One query of `np.interp(x, xp, fp)` for increasing `xp`: clamp below the
first node and above the last, interpolate linearly between bracketing
nodes. -/
def interpOne (x : ℚ) : List ℚ → List ℚ → ℚ
  | x1 :: x2 :: xp, y1 :: y2 :: yp =>
      if x ≤ x1 then y1
      else if x ≤ x2 then y1 + (y2 - y1) * (x - x1) / (x2 - x1)
      else interpOne x (x2 :: xp) (y2 :: yp)
  | [_], y1 :: _ => y1
  | _, _ => 0

/-- `np.interp(xs, xp, fp)` (vectorized). -/
def npInterp (xs xp fp : List ℚ) : List ℚ :=
  xs.map (fun x => interpOne x xp fp)

/-- `truncate_data(signal, tau)` (`DataProcessor.py` 964–999): build the NI
and VN time bases (`tni = t - tau`, `tvn = t`), restrict to the common
interval `tcom = tvn[tvn < tni[-1]]`, then interpolate an NI signal onto
`tcom` or boolean-slice a VN signal to `tvn <= tcom[-1]`; any other source
raises `ValueError`. -/
def truncate_data (samples : List ℚ) (source : String) (sampleRate : ℚ)
    (tau : ℚ) : Except String (List ℚ) :=
  let t := time_vector samples.length sampleRate
  let tni := t.map (· - tau)
  let tvn := t
  let tcom := tvn.filter (fun x => x < tni.getLastD 0)
  if source = "NI" then
    .ok (npInterp tcom tni samples)
  else if source = "VN" then
    .ok (((samples.zip tvn).filter
      (fun p => p.2 ≤ tcom.getLastD 0)).map Prod.fst)
  else
    .error "No source was defined in this signal."

/-- The last entry of a nonempty list does not depend on the default. -/
lemma getLastD_congr {α : Type} (d d' : α) :
    ∀ (l : List α), l ≠ [] → l.getLastD d = l.getLastD d'
  | [], h => absurd rfl h
  | _ :: l, _ => by
      conv_lhs => rw [List.getLastD_cons]
      conv_rhs => rw [List.getLastD_cons]

/-- The last entry of a nonempty list is a member. -/
lemma getLastD_mem {α : Type} (d : α) :
    ∀ (l : List α), l ≠ [] → l.getLastD d ∈ l
  | [], h => absurd rfl h
  | [a], _ => by simp
  | a :: b :: l, _ => by
      rw [List.getLastD_cons]
      exact List.mem_cons_of_mem a (getLastD_mem a (b :: l)
        (List.cons_ne_nil b l))

/-- `getLastD` commutes with `map` on nonempty lists. -/
lemma getLastD_map {α β : Type} (f : α → β) :
    ∀ (l : List α) (d : β) (d' : α), l ≠ [] →
      (l.map f).getLastD d = f (l.getLastD d')
  | [], _, _, h => absurd rfl h
  | [a], d, d', _ => by simp
  | a :: b :: l, d, d', _ => by
      rw [List.map_cons]
      conv_lhs => rw [List.getLastD_cons]
      conv_rhs => rw [List.getLastD_cons]
      exact getLastD_map f (b :: l) (f a) a (List.cons_ne_nil b l)

/-- On a strictly increasing list, filtering by `≤ last-kept-element` of the
`< c` filter reproduces the `< c` filter. -/
lemma filter_le_filter_lt_getLastD (c : ℚ) :
    ∀ (t : List ℚ), t.Pairwise (· < ·) →
      t.filter (fun x => decide (x < c)) ≠ [] →
      t.filter (fun x => decide (x ≤
          (t.filter (fun x => decide (x < c))).getLastD 0)) =
        t.filter (fun x => decide (x < c))
  | [], _, hne => absurd rfl hne
  | x :: xs, hsorted, hne => by
      rw [List.pairwise_cons] at hsorted
      by_cases hx : x < c
      · have hWcons : (x :: xs).filter (fun x => decide (x < c)) =
            x :: xs.filter (fun x => decide (x < c)) := by
          simp [List.filter_cons, hx]
        rw [hWcons, List.getLastD_cons]
        by_cases hWxs : xs.filter (fun x => decide (x < c)) = []
        · rw [hWxs]
          have hnil : ([] : List ℚ).getLastD x = x := rfl
          rw [hnil, List.filter_cons, if_pos (decide_eq_true (le_refl x))]
          congr 1
          rw [List.filter_eq_nil_iff]
          intro y hy
          simpa using not_le.mpr (hsorted.1 y hy)
        · have hlast_mem : (xs.filter (fun x => decide (x < c))).getLastD x ∈
              xs.filter (fun x => decide (x < c)) :=
            getLastD_mem x _ hWxs
          have hlast_gt : x <
              (xs.filter (fun x => decide (x < c))).getLastD x :=
            hsorted.1 _ (List.mem_of_mem_filter hlast_mem)
          have hstep : (x :: xs).filter (fun y => decide (y ≤
              (xs.filter (fun x => decide (x < c))).getLastD x)) =
              x :: xs.filter (fun y => decide (y ≤
                (xs.filter (fun x => decide (x < c))).getLastD x)) := by
            rw [List.filter_cons,
              if_pos (decide_eq_true (le_of_lt hlast_gt))]
          rw [hstep]
          congr 1
          rw [getLastD_congr x 0 _ hWxs]
          exact filter_le_filter_lt_getLastD c xs hsorted.2 hWxs
      · exfalso
        have hW : (x :: xs).filter (fun x => decide (x < c)) =
            xs.filter (fun x => decide (x < c)) := by
          simp [List.filter_cons, hx]
        rw [hW] at hne
        obtain ⟨y, hy⟩ := List.exists_mem_of_ne_nil _ hne
        have hyy := List.mem_filter.mp hy
        have h1 : y < c := by simpa using hyy.2
        exact hx (lt_trans (hsorted.1 y hyy.1) h1)

lemma time_vector_length (n : Nat) (rate : ℚ) :
    (time_vector n rate).length = n := by
  rw [time_vector, List.length_map, List.length_range]

lemma time_vector_pairwise (n : Nat) (rate : ℚ) (h : 0 < rate) :
    (time_vector n rate).Pairwise (· < ·) := by
  rw [time_vector]
  refine List.Pairwise.map _ ?_ (List.pairwise_lt_range n)
  intro a b hab
  have hab' : (a : ℚ) < b := by exact_mod_cast hab
  exact div_lt_div_of_pos_right hab' h

lemma time_vector_getLastD (n : Nat) (hn : 1 ≤ n) (rate : ℚ) :
    (time_vector n rate).getLastD 0 = ((n : ℚ) - 1) / rate := by
  obtain ⟨m, rfl⟩ : ∃ m, n = m + 1 := ⟨n - 1, by omega⟩
  rw [time_vector, getLastD_map _ _ 0 0 (by simp), List.range_succ,
    List.getLastD_concat]
  push_cast
  ring_nf

lemma time_vector_zero_mem (n : Nat) (hn : 1 ≤ n) (rate : ℚ) :
    (0 : ℚ) ∈ time_vector n rate := by
  rw [time_vector]
  exact List.mem_map.mpr ⟨0, List.mem_range.mpr (by omega), by simp⟩

/-- **C3.**  For equal-length, equal-rate NI and VN signals and
`0 ≤ tau < duration` (duration `= (n-1)/rate`, the last timestamp),
`truncate_data` succeeds on both, the truncated signals have equal positive
length — the NI signal interpolated onto the common grid of VN times below
the `tau`-shifted NI end time, the VN signal sliced to that same grid — and
their last timestamps agree, in particular differing by less than one
sample period. -/
theorem truncate_data_equal_length (sigNI sigVN : List ℚ) (n : Nat)
    (rate tau : ℚ) (hNI : sigNI.length = n) (hVN : sigVN.length = n)
    (hrate : 0 < rate) (htau0 : 0 ≤ tau)
    (htau : tau < ((n : ℚ) - 1) / rate) :
    ∃ a b, truncate_data sigNI "NI" rate tau = .ok a ∧
      truncate_data sigVN "VN" rate tau = .ok b ∧
      a.length = b.length ∧ 0 < a.length ∧
      |(time_vector a.length rate).getLastD 0 -
          (time_vector b.length rate).getLastD 0| < 1 / rate := by
  have h1 : (0 : ℚ) < ((n : ℚ) - 1) / rate := lt_of_le_of_lt htau0 htau
  have hnum : (0 : ℚ) < (n : ℚ) - 1 := by
    rcases div_pos_iff.mp h1 with ⟨h, _⟩ | ⟨_, hr⟩
    · exact h
    · linarith
  have hn1 : 1 ≤ n := by
    have hq : (0 : ℚ) < (n : ℚ) := by linarith
    exact_mod_cast Nat.one_le_iff_ne_zero.mpr (by exact_mod_cast hq.ne')
  have htne : time_vector n rate ≠ [] := by
    intro h
    have hl := congrArg List.length h
    rw [time_vector_length] at hl
    simp at hl
    omega
  have htni : ((time_vector n rate).map (fun x => x - tau)).getLastD 0 =
      ((n : ℚ) - 1) / rate - tau := by
    rw [getLastD_map _ _ 0 0 htne, time_vector_getLastD n hn1 rate]
  have hcpos : (0 : ℚ) < ((n : ℚ) - 1) / rate - tau := by linarith
  have h0com : (0 : ℚ) ∈ (time_vector n rate).filter
      (fun x => decide (x < ((n : ℚ) - 1) / rate - tau)) :=
    List.mem_filter.mpr
      ⟨time_vector_zero_mem n hn1 rate, decide_eq_true hcpos⟩
  have hcomne : (time_vector n rate).filter
      (fun x => decide (x < ((n : ℚ) - 1) / rate - tau)) ≠ [] :=
    List.ne_nil_of_mem h0com
  have hsorted := time_vector_pairwise n rate hrate
  have hlen_eq : (npInterp ((time_vector n rate).filter
      (fun x => decide (x < ((n : ℚ) - 1) / rate - tau)))
      ((time_vector n rate).map (fun x => x - tau)) sigNI).length =
      (((sigVN.zip (time_vector n rate)).filter
        (fun p => decide (p.2 ≤ ((time_vector n rate).filter
          (fun x => decide (x < ((n : ℚ) - 1) / rate - tau))).getLastD 0)))
        |>.map Prod.fst).length := by
    simp only [npInterp]
    rw [List.length_map, List.length_map]
    have hmapsnd : (sigVN.zip (time_vector n rate)).map Prod.snd =
        time_vector n rate :=
      List.map_snd_zip _ _ (by rw [time_vector_length, hVN])
    have hcm := List.countP_map
      (fun y => decide (y ≤ ((time_vector n rate).filter
        (fun x => decide (x < ((n : ℚ) - 1) / rate - tau))).getLastD 0))
      Prod.snd (sigVN.zip (time_vector n rate))
    rw [hmapsnd] at hcm
    simp only [Function.comp_def] at hcm
    rw [← List.countP_eq_length_filter, ← List.countP_eq_length_filter,
      ← hcm, List.countP_eq_length_filter, List.countP_eq_length_filter,
      filter_le_filter_lt_getLastD (((n : ℚ) - 1) / rate - tau)
        (time_vector n rate) hsorted hcomne]
  refine ⟨npInterp ((time_vector n rate).filter
      (fun x => decide (x < ((n : ℚ) - 1) / rate - tau)))
      ((time_vector n rate).map (fun x => x - tau)) sigNI,
    ((sigVN.zip (time_vector n rate)).filter
      (fun p => decide (p.2 ≤ ((time_vector n rate).filter
        (fun x => decide (x < ((n : ℚ) - 1) / rate - tau))).getLastD 0)))
      |>.map Prod.fst, ?_, ?_, hlen_eq, ?_, ?_⟩
  · simp only [truncate_data, hNI, htni]
    rw [if_pos trivial]
  · simp only [truncate_data, hVN, htni]
    rw [if_neg (by decide), if_pos trivial]
  · simp only [npInterp]
    rw [List.length_map]
    exact List.length_pos.mpr hcomne
  · rw [hlen_eq, sub_self, abs_zero]
    exact div_pos one_pos hrate

/-- Witness for `truncate_data_equal_length`: three samples at rate 1 with
`tau = 1` (duration 2). -/
theorem truncate_data_equal_length_witness :
    ∃ a b, truncate_data [1, 2, 3] "NI" 1 1 = .ok a ∧
      truncate_data [4, 5, 6] "VN" 1 1 = .ok b ∧
      a.length = b.length ∧ 0 < a.length ∧
      |(time_vector a.length 1).getLastD 0 -
          (time_vector b.length 1).getLastD 0| < 1 / 1 :=
  truncate_data_equal_length [1, 2, 3] [4, 5, 6] 3 1 1 rfl rfl
    (by norm_num) (by norm_num) (by norm_num)

/-- `sync_error(tau, signal1, signal2, time)` (`DataProcessor.py`
1027–1076): guard `|tau| >= time[-1]` (`ValueError`, the spec's
`TauRangeError`); shift the time base by `tau`, keep the overlap window
(`< time[-1]` for positive `tau`, `> time[0]` otherwise), interpolate
`signal1` onto it, boolean-slice `signal2` to it, and return the L2 norm of
the difference (`np.linalg.norm`, the square root of the sum of squared
differences). -/
noncomputable def sync_error (tau : ℚ) (signal1 signal2 time : List ℚ) :
    Except String ℝ :=
  if time.getLastD 0 ≤ |tau| then
    .error "abs(tau) must be less than or equal to the last time value"
  else
    let shiftedTime := time.map (fun x => x + tau)
    let intervalTime :=
      if 0 < tau then shiftedTime.filter (fun x => x < time.getLastD 0)
      else shiftedTime.filter (fun x => time.getD 0 0 < x)
    let sig1OnInterval := npInterp intervalTime time signal1
    let sig2OnInterval :=
      if 0 < tau then
        ((signal2.zip shiftedTime).filter
          (fun p => p.2 ≤ intervalTime.getLastD 0)).map Prod.fst
      else
        ((signal2.zip shiftedTime).filter
          (fun p => intervalTime.getD 0 0 ≤ p.2)).map Prod.fst
    .ok (Real.sqrt
      (((sig1OnInterval.zipWith (fun a b => a - b) sig2OnInterval).map
        (fun d => d ^ 2)).sum : ℚ))

/-- The first entry of a nonempty list (`l[0]` via `getD`) is a member. -/
lemma getD_zero_mem : ∀ (l : List ℚ), l ≠ [] → l.getD 0 0 ∈ l
  | [], h => absurd rfl h
  | a :: t, _ => by
      rw [show (a :: t).getD 0 0 = a from rfl]
      exact List.mem_cons_self a t

/-- Mirror of `filter_le_filter_lt_getLastD` for the `tau <= 0` branch: on a
strictly increasing list, filtering by `≥ first-kept-element` of the `> c`
filter reproduces the `> c` filter. -/
lemma filter_ge_filter_gt_getD (c : ℚ) :
    ∀ t : List ℚ, t.Pairwise (· < ·) →
      t.filter (fun x => decide (c < x)) ≠ [] →
      t.filter (fun x => decide
          ((t.filter (fun x => decide (c < x))).getD 0 0 ≤ x)) =
        t.filter (fun x => decide (c < x))
  | [], _, hne => absurd rfl hne
  | x :: xs, hsorted, hne => by
      rw [List.pairwise_cons] at hsorted
      by_cases hcx : c < x
      · have hW : (x :: xs).filter (fun x => decide (c < x)) =
            x :: xs.filter (fun x => decide (c < x)) := by
          simp [List.filter_cons, hcx]
        rw [hW, show (x :: xs.filter
          (fun x => decide (c < x))).getD 0 0 = x from rfl]
        have hall1 : xs.filter (fun y => decide (x ≤ y)) = xs := by
          rw [List.filter_eq_self]
          intro a ha
          exact decide_eq_true (le_of_lt (hsorted.1 a ha))
        have hall2 : xs.filter (fun y => decide (c < y)) = xs := by
          rw [List.filter_eq_self]
          intro a ha
          exact decide_eq_true (lt_trans hcx (hsorted.1 a ha))
        rw [List.filter_cons, if_pos (decide_eq_true (le_refl x)), hall1,
          hall2]
      · have hW : (x :: xs).filter (fun x => decide (c < x)) =
            xs.filter (fun x => decide (c < x)) := by
          simp [List.filter_cons, hcx]
        rw [hW]
        have hne' : xs.filter (fun x => decide (c < x)) ≠ [] := by
          rw [hW] at hne
          exact hne
        have hdm : (xs.filter (fun x => decide (c < x))).getD 0 0 ∈
            xs.filter (fun x => decide (c < x)) := getD_zero_mem _ hne'
        have hxd : x < (xs.filter (fun x => decide (c < x))).getD 0 0 :=
          hsorted.1 _ (List.mem_of_mem_filter hdm)
        rw [List.filter_cons, if_neg (by simpa using not_le.mpr hxd)]
        exact filter_ge_filter_gt_getD c xs hsorted.2 hne'

/-- The first timestamp of a nonempty time vector is 0 (`time[0]`). -/
lemma time_vector_getD_zero (n : Nat) (hn : 1 ≤ n) (rate : ℚ) :
    (time_vector n rate).getD 0 0 = 0 := by
  obtain ⟨m, rfl⟩ : ∃ m, n = m + 1 := ⟨n - 1, by omega⟩
  rw [time_vector, List.range_succ_eq_map, List.map_cons]
  simp

/-- **C8.**  `sync_error` fails exactly when `|tau| ≥ time[-1]`; for every
`tau` of smaller magnitude it returns the L2 norm of the difference between
`signal1` interpolated onto the `tau`-shifted overlap grid and `signal2`
sliced to that same overlap region — the overlap window being
`< time[-1]` for positive `tau` (the branch the grid search hits for its
candidates above 0) and `> time[0]` for `tau ≤ 0` (including the grid's
first candidate `tau = 0`); and when `time` is the time vector of the
equal-length signals, those two overlap vectors have equal length in both
branches, so the pointwise difference is well formed. -/
theorem sync_error_spec (tau : ℚ) (signal1 signal2 time : List ℚ) :
    ((∃ msg, sync_error tau signal1 signal2 time = .error msg) ↔
      time.getLastD 0 ≤ |tau|) ∧
    (|tau| < time.getLastD 0 → 0 < tau →
      sync_error tau signal1 signal2 time =
        .ok (Real.sqrt
          ((((npInterp ((time.map (fun x => x + tau)).filter
                (fun x => decide (x < time.getLastD 0))) time
              signal1).zipWith (fun a b => a - b)
              (((signal2.zip (time.map (fun x => x + tau))).filter
                (fun p => decide (p.2 ≤
                  ((time.map (fun x => x + tau)).filter
                    (fun x => decide (x < time.getLastD 0))).getLastD 0)))
                |>.map Prod.fst)).map (fun d => d ^ 2)).sum : ℚ))) ∧
    (|tau| < time.getLastD 0 → ¬ 0 < tau →
      sync_error tau signal1 signal2 time =
        .ok (Real.sqrt
          ((((npInterp ((time.map (fun x => x + tau)).filter
                (fun x => decide (time.getD 0 0 < x))) time
              signal1).zipWith (fun a b => a - b)
              (((signal2.zip (time.map (fun x => x + tau))).filter
                (fun p => decide (((time.map (fun x => x + tau)).filter
                  (fun x => decide (time.getD 0 0 < x))).getD 0 0 ≤ p.2)))
                |>.map Prod.fst)).map (fun d => d ^ 2)).sum : ℚ))) ∧
    (∀ n rate, time = time_vector n rate → signal2.length = n →
      0 < rate → 0 < tau → |tau| < time.getLastD 0 →
      (npInterp ((time.map (fun x => x + tau)).filter
          (fun x => decide (x < time.getLastD 0))) time signal1).length =
        ((((signal2.zip (time.map (fun x => x + tau))).filter
          (fun p => decide (p.2 ≤
            ((time.map (fun x => x + tau)).filter
              (fun x => decide (x < time.getLastD 0))).getLastD 0)))
          |>.map Prod.fst)).length) ∧
    (∀ n rate, time = time_vector n rate → signal2.length = n →
      0 < rate → ¬ 0 < tau → |tau| < time.getLastD 0 →
      (npInterp ((time.map (fun x => x + tau)).filter
          (fun x => decide (time.getD 0 0 < x))) time signal1).length =
        ((((signal2.zip (time.map (fun x => x + tau))).filter
          (fun p => decide (((time.map (fun x => x + tau)).filter
            (fun x => decide (time.getD 0 0 < x))).getD 0 0 ≤ p.2)))
          |>.map Prod.fst)).length) := by
  refine ⟨?_, ?_, ?_, ?_, ?_⟩
  · constructor
    · rintro ⟨msg, hmsg⟩
      by_contra hcon
      rw [sync_error, if_neg hcon] at hmsg
      simp at hmsg
    · intro h
      exact ⟨_, by rw [sync_error, if_pos h]⟩
  · intro hlt htau
    rw [sync_error, if_neg (not_le.mpr hlt)]
    simp only [if_pos htau]
  · intro hlt htau
    rw [sync_error, if_neg (not_le.mpr hlt)]
    simp only [if_neg htau]
  · intro n rate htime hs2 hrate htau hlt
    subst htime
    have hn1 : 1 ≤ n := by
      by_contra hcon
      have hn0 : n = 0 := by omega
      subst hn0
      rw [show time_vector 0 rate = [] from rfl] at hlt
      simp at hlt
      have := abs_nonneg tau
      linarith
    have hshift_sorted : ((time_vector n rate).map
        (fun x => x + tau)).Pairwise (· < ·) := by
      refine List.Pairwise.map _ ?_ (time_vector_pairwise n rate hrate)
      intro a b hab
      linarith
    have htau_lt : tau < (time_vector n rate).getLastD 0 :=
      lt_of_le_of_lt (le_abs_self tau) hlt
    have hmem : (0 : ℚ) + tau ∈ ((time_vector n rate).map
        (fun x => x + tau)).filter
        (fun x => decide (x < (time_vector n rate).getLastD 0)) := by
      refine List.mem_filter.mpr ⟨?_, decide_eq_true ?_⟩
      · exact List.mem_map.mpr ⟨0, time_vector_zero_mem n hn1 rate, rfl⟩
      · rw [zero_add]
        exact htau_lt
    have hcomne : ((time_vector n rate).map (fun x => x + tau)).filter
        (fun x => decide (x < (time_vector n rate).getLastD 0)) ≠ [] :=
      List.ne_nil_of_mem hmem
    simp only [npInterp]
    rw [List.length_map, List.length_map]
    have hmapsnd : (signal2.zip ((time_vector n rate).map
        (fun x => x + tau))).map Prod.snd =
        (time_vector n rate).map (fun x => x + tau) :=
      List.map_snd_zip _ _
        (by rw [List.length_map, time_vector_length, hs2])
    have hcm := List.countP_map
      (fun y => decide (y ≤ (((time_vector n rate).map
        (fun x => x + tau)).filter
        (fun x => decide (x < (time_vector n rate).getLastD 0))).getLastD 0))
      Prod.snd (signal2.zip ((time_vector n rate).map (fun x => x + tau)))
    rw [hmapsnd] at hcm
    simp only [Function.comp_def] at hcm
    rw [← List.countP_eq_length_filter, ← List.countP_eq_length_filter,
      ← hcm, List.countP_eq_length_filter, List.countP_eq_length_filter,
      filter_le_filter_lt_getLastD ((time_vector n rate).getLastD 0)
        ((time_vector n rate).map (fun x => x + tau)) hshift_sorted hcomne]
  · intro n rate htime hs2 hrate htau hlt
    subst htime
    have hn1 : 1 ≤ n := by
      by_contra hcon
      have hn0 : n = 0 := by omega
      subst hn0
      rw [show time_vector 0 rate = [] from rfl] at hlt
      simp at hlt
      have := abs_nonneg tau
      linarith
    have htne : time_vector n rate ≠ [] := by
      intro h
      have hl := congrArg List.length h
      rw [time_vector_length] at hl
      simp at hl
      omega
    have hshift_sorted : ((time_vector n rate).map
        (fun x => x + tau)).Pairwise (· < ·) := by
      refine List.Pairwise.map _ ?_ (time_vector_pairwise n rate hrate)
      intro a b hab
      linarith
    have hgd0 : (time_vector n rate).getD 0 0 = 0 :=
      time_vector_getD_zero n hn1 rate
    have hpos : (0 : ℚ) < (time_vector n rate).getLastD 0 + tau := by
      have hngl := neg_abs_le tau
      linarith
    have hmem : (time_vector n rate).getLastD 0 + tau ∈
        ((time_vector n rate).map (fun x => x + tau)).filter
          (fun x => decide ((time_vector n rate).getD 0 0 < x)) := by
      refine List.mem_filter.mpr ⟨?_, decide_eq_true ?_⟩
      · exact List.mem_map.mpr ⟨(time_vector n rate).getLastD 0,
          getLastD_mem 0 _ htne, rfl⟩
      · rw [hgd0]
        exact hpos
    have hcomne : ((time_vector n rate).map (fun x => x + tau)).filter
        (fun x => decide ((time_vector n rate).getD 0 0 < x)) ≠ [] :=
      List.ne_nil_of_mem hmem
    simp only [npInterp]
    rw [List.length_map, List.length_map]
    have hmapsnd : (signal2.zip ((time_vector n rate).map
        (fun x => x + tau))).map Prod.snd =
        (time_vector n rate).map (fun x => x + tau) :=
      List.map_snd_zip _ _
        (by rw [List.length_map, time_vector_length, hs2])
    have hcm := List.countP_map
      (fun y => decide ((((time_vector n rate).map
        (fun x => x + tau)).filter
        (fun x => decide ((time_vector n rate).getD 0 0 < x))).getD 0 0 ≤ y))
      Prod.snd (signal2.zip ((time_vector n rate).map (fun x => x + tau)))
    rw [hmapsnd] at hcm
    simp only [Function.comp_def] at hcm
    rw [← List.countP_eq_length_filter, ← List.countP_eq_length_filter,
      ← hcm, List.countP_eq_length_filter, List.countP_eq_length_filter,
      filter_ge_filter_gt_getD ((time_vector n rate).getD 0 0)
        ((time_vector n rate).map (fun x => x + tau)) hshift_sorted hcomne]

/-- Witness for `sync_error_spec` on the 3-sample unit-rate time vector
(duration 2): `tau = 1` exercises the positive branch and `tau = 0` (the
grid search's first candidate) the `tau <= 0` branch, for both the returned
value and the equal-length clause. -/
theorem sync_error_spec_witness :
    ((∃ msg, sync_error 1 [1, 2, 3] [4, 5, 6] (time_vector 3 1) =
        .error msg) ↔ (time_vector 3 1).getLastD 0 ≤ |(1 : ℚ)|) ∧
    sync_error 1 [1, 2, 3] [4, 5, 6] (time_vector 3 1) =
      .ok (Real.sqrt
        ((((npInterp (((time_vector 3 1).map (fun x => x + 1)).filter
              (fun x => decide (x < (time_vector 3 1).getLastD 0)))
            (time_vector 3 1) [1, 2, 3]).zipWith (fun a b => a - b)
            ((([(4 : ℚ), 5, 6].zip ((time_vector 3 1).map
              (fun x => x + 1))).filter
              (fun p => decide (p.2 ≤
                ((((time_vector 3 1).map (fun x => x + 1)).filter
                  (fun x => decide (x < (time_vector 3 1).getLastD 0)))).getLastD
                  0)))
              |>.map Prod.fst)).map (fun d => d ^ 2)).sum : ℚ)) ∧
    sync_error 0 [1, 2, 3] [4, 5, 6] (time_vector 3 1) =
      .ok (Real.sqrt
        ((((npInterp (((time_vector 3 1).map (fun x => x + 0)).filter
              (fun x => decide ((time_vector 3 1).getD 0 0 < x)))
            (time_vector 3 1) [1, 2, 3]).zipWith (fun a b => a - b)
            ((([(4 : ℚ), 5, 6].zip ((time_vector 3 1).map
              (fun x => x + 0))).filter
              (fun p => decide (((((time_vector 3 1).map
                (fun x => x + 0)).filter
                (fun x => decide ((time_vector 3 1).getD 0 0 < x)))).getD 0 0
                ≤ p.2)))
              |>.map Prod.fst)).map (fun d => d ^ 2)).sum : ℚ)) ∧
    (npInterp (((time_vector 3 1).map (fun x => x + 1)).filter
        (fun x => decide (x < (time_vector 3 1).getLastD 0)))
        (time_vector 3 1) [1, 2, 3]).length =
      ((([(4 : ℚ), 5, 6].zip ((time_vector 3 1).map (fun x => x + 1))).filter
        (fun p => decide (p.2 ≤
          ((((time_vector 3 1).map (fun x => x + 1)).filter
            (fun x => decide (x < (time_vector 3 1).getLastD 0)))).getLastD
            0)))
        |>.map Prod.fst).length ∧
    (npInterp (((time_vector 3 1).map (fun x => x + 0)).filter
        (fun x => decide ((time_vector 3 1).getD 0 0 < x)))
        (time_vector 3 1) [1, 2, 3]).length =
      ((([(4 : ℚ), 5, 6].zip ((time_vector 3 1).map (fun x => x + 0))).filter
        (fun p => decide (((((time_vector 3 1).map (fun x => x + 0)).filter
          (fun x => decide ((time_vector 3 1).getD 0 0 < x)))).getD 0 0
          ≤ p.2)))
        |>.map Prod.fst).length := by
  have hlast : (time_vector 3 1).getLastD 0 = 2 := by
    rw [time_vector_getLastD 3 (by norm_num) 1]
    norm_num
  have habs1 : |(1 : ℚ)| < (time_vector 3 1).getLastD 0 := by
    rw [hlast]
    norm_num
  have habs0 : |(0 : ℚ)| < (time_vector 3 1).getLastD 0 := by
    rw [hlast]
    norm_num
  have h1 := sync_error_spec 1 [1, 2, 3] [4, 5, 6] (time_vector 3 1)
  have h0 := sync_error_spec 0 [1, 2, 3] [4, 5, 6] (time_vector 3 1)
  exact ⟨h1.1, h1.2.1 habs1 (by norm_num),
    h0.2.2.1 habs0 (by norm_num),
    h1.2.2.2.1 3 1 rfl rfl (by norm_num) (by norm_num) habs1,
    h0.2.2.2.2 3 1 rfl rfl (by norm_num) (by norm_num) habs0⟩

/-! ### Run orchestration (`Run.process_raw_signals`, `main.py` 685–706)

The orchestration is embedded as a state machine over stage markers: each
stage method of `Run` sets the flag for the signal dictionary it creates and
updates `topSig` exactly as the source does (`calibrate_signals` sets
`topSig = 'calibrated'`, `truncate_signals` sets `'truncated'`,
`task_signals` sets `'task'`; `compute_time_shift`, `check_time_shift` and
`compute_signals` leave `topSig` alone; `filter_top_signals` filters a
dictionary in place and creates none). -/

structure RunState where
  calibratedSignals : Bool
  truncatedSignals : Bool
  computedSignals : Bool
  taskSignals : Bool
  tauComputed : Bool
  timeShiftChecked : Bool
  topSig : String
  deriving Repr, DecidableEq

def calibrate_signals (s : RunState) : RunState :=
  { s with calibratedSignals := true, topSig := "calibrated" }

def compute_time_shift (s : RunState) : RunState :=
  { s with tauComputed := true }

def check_time_shift (s : RunState) : RunState :=
  { s with timeShiftChecked := true }

def truncate_signals (s : RunState) : RunState :=
  { s with truncatedSignals := true, topSig := "truncated" }

def compute_signals (s : RunState) : RunState :=
  { s with computedSignals := true }

def task_signals (s : RunState) : RunState :=
  { s with taskSignals := true, topSig := "task" }

def filter_top_signals (s : RunState) : RunState := s

/-- `Run.process_raw_signals` (`main.py` 685–706): calibrate, then — unless
the maneuver is one of the three calibration/system-test maneuvers — run
time-shift computation, the time-shift check, truncation, computed-signal
computation and task extraction in order; finally filter the top signals
when a cutoff frequency was given. -/
def process_raw_signals (maneuver : String) (filterFreq : Option ℚ)
    (s : RunState) : RunState :=
  let s1 := calibrate_signals s
  let s2 :=
    if maneuver ≠ "Steer Dynamics Test" ∧ maneuver ≠ "System Test" ∧
        maneuver ≠ "Static Calibration" then
      task_signals (compute_signals (truncate_signals
        (check_time_shift (compute_time_shift s1))))
    else s1
  if filterFreq.isSome then filter_top_signals s2 else s2

/-- **C9.**  For the maneuvers 'Steer Dynamics Test', 'System Test' and
'Static Calibration', `process_raw_signals` executes none of time-shift
computation, the time-shift check, truncation, computed-signal computation
or task extraction: starting from the raw-loaded state, only the calibrated
signals exist afterwards and `topSig` is `'calibrated'`. -/
theorem process_raw_signals_calibration_only (maneuver : String)
    (filterFreq : Option ℚ)
    (hm : maneuver = "Steer Dynamics Test" ∨ maneuver = "System Test" ∨
      maneuver = "Static Calibration") :
    process_raw_signals maneuver filterFreq
        ⟨false, false, false, false, false, false, "raw"⟩ =
      ⟨true, false, false, false, false, false, "calibrated"⟩ := by
  rcases hm with h | h | h <;> subst h <;> cases filterFreq <;> rfl

/-- Witness for `process_raw_signals_calibration_only` at 'System Test'
with a 30 Hz filter frequency. -/
theorem process_raw_signals_calibration_only_witness :
    process_raw_signals "System Test" (some 30)
        ⟨false, false, false, false, false, false, "raw"⟩ =
      ⟨true, false, false, false, false, false, "calibrated"⟩ :=
  process_raw_signals_calibration_only "System Test" (some 30)
    (Or.inr (Or.inl rfl))

/-! ### NaN-aware segmentation (`split_around_nan`, `DataProcessor.py`
770–818)

Samples are `Option ℚ` with `none` playing the role of `nan`
(`np.isnan` becomes `Option.isNone`).  `np.split(sig, idxs)` cuts `sig` at
the given absolute indices; `np.nonzero(np.isnan(sig))[0]` is `nanIndices`. -/

/-- `np.split` helper: cut at absolute indices, carrying the previous cut
position (`sig[prev:i]` slices become `take`/`drop`). -/
def npSplitAux {α : Type} (sig : List α) : Nat → List Nat → List (List α)
  | prev, [] => [sig.drop prev]
  | prev, i :: rest =>
      ((sig.drop prev).take (i - prev)) :: npSplitAux sig i rest

/-- `np.split(sig, idxs)`. -/
def npSplit {α : Type} (sig : List α) (idxs : List Nat) : List (List α) :=
  npSplitAux sig 0 idxs

/-- `np.nonzero(np.isnan(sig))[0]`: positions of the `nan`s, in order. -/
def nanIndices : List (Option ℚ) → List Nat
  | [] => []
  | none :: rest => 0 :: (nanIndices rest).map (· + 1)
  | some _ :: rest => (nanIndices rest).map (· + 1)

/-- `np.isnan(sig).any()`. -/
def hasNan (l : List (Option ℚ)) : Bool := l.any Option.isNone

/-- The index-building loop of `split_around_nan`: `count` accumulates the
section lengths; a `nan` section contributes `(count-1, count)` and a clean
section `(count-len, count)`. -/
def buildIndices : Nat → List (List (Option ℚ)) → List (Nat × Nat)
  | _, [] => []
  | count, arr :: rest =>
      (if hasNan arr then (count + arr.length - 1, count + arr.length)
       else (count + arr.length - arr.length, count + arr.length)) ::
        buildIndices (count + arr.length) rest

/-- `split_around_nan(sig)` (`DataProcessor.py` 770–818): split at the `nan`
positions, re-split every `nan`-carrying piece just after its `nan`, drop
empty pieces, and rebuild the index pairs from the section lengths; a
`nan`-free signal is returned whole as `((0, len(sig)), sig)`. -/
def split_around_nan (sig : List (Option ℚ)) :
    List (Nat × Nat) × List (List (Option ℚ)) :=
  if hasNan sig then
    let firstSplit := npSplit sig (nanIndices sig)
    let arrays := firstSplit.foldl (fun acc arr =>
      if hasNan arr then acc ++ npSplit arr ((nanIndices arr).map (· + 1))
      else acc ++ [arr]) []
    let arrays2 := arrays.filter (fun arr => !arr.isEmpty)
    (buildIndices 0 arrays2, arrays2)
  else ([(0, sig.length)], [sig])

lemma npSplitAux_shift {α : Type} (x : α) (rest : List α) :
    ∀ (idxs : List Nat) (p : Nat),
      npSplitAux (x :: rest) (p + 1) (idxs.map (· + 1)) =
        npSplitAux rest p idxs
  | [], p => by
      simp [npSplitAux]
  | i :: is, p => by
      rw [List.map_cons, npSplitAux, npSplitAux]
      congr 1
      · rw [List.drop_succ_cons]
        congr 1
        omega
      · exact npSplitAux_shift x rest is i

lemma npSplitAux_cons {α : Type} (x : α) (rest : List α) (idxs : List Nat) :
    ∃ h tl, npSplitAux rest 0 idxs = h :: tl ∧
      npSplitAux (x :: rest) 0 (idxs.map (· + 1)) = (x :: h) :: tl := by
  cases idxs with
  | nil => exact ⟨rest, [], rfl, by simp [npSplitAux]⟩
  | cons i is =>
      refine ⟨rest.take (i - 0), npSplitAux rest i is, rfl, ?_⟩
      rw [List.map_cons, npSplitAux]
      congr 1
      exact npSplitAux_shift x rest is i

lemma nanIndices_eq_nil_of_no_nan :
    ∀ (l : List (Option ℚ)), hasNan l = false → nanIndices l = []
  | [], _ => rfl
  | none :: rest, h => by simp [hasNan] at h
  | some q :: rest, h => by
      rw [nanIndices, nanIndices_eq_nil_of_no_nan rest (by
        simpa [hasNan] using h)]
      rfl

/-- Shape of the first split: cutting at the `nan` positions yields a clean
head piece followed by pieces that each start with their single `nan`. -/
lemma nanSplit_structure :
    ∀ sig : List (Option ℚ),
      ∃ h tl, npSplit sig (nanIndices sig) = h :: tl ∧
        hasNan h = false ∧
        (∀ p ∈ tl, ∃ q, p = none :: q ∧ hasNan q = false) ∧
        h ++ tl.flatten = sig
  | [] => ⟨[], [], rfl, rfl, by simp, rfl⟩
  | some v :: rest => by
      obtain ⟨h, tl, heq, hno, htl, hjoin⟩ := nanSplit_structure rest
      obtain ⟨h', tl', heq', hcons⟩ :=
        npSplitAux_cons (some v) rest (nanIndices rest)
      rw [npSplit] at heq
      rw [heq] at heq'
      injection heq' with e1 e2
      subst e1
      subst e2
      refine ⟨some v :: h, tl, hcons, ?_, htl, ?_⟩
      · simpa [hasNan] using hno
      · rw [List.cons_append, hjoin]
  | none :: rest => by
      obtain ⟨h, tl, heq, hno, htl, hjoin⟩ := nanSplit_structure rest
      obtain ⟨h', tl', heq', hcons⟩ :=
        npSplitAux_cons none rest (nanIndices rest)
      rw [npSplit] at heq
      rw [heq] at heq'
      injection heq' with e1 e2
      subst e1
      subst e2
      refine ⟨[], (none :: h) :: tl, ?_, rfl, ?_, ?_⟩
      · rw [show npSplit (none :: rest) (nanIndices (none :: rest)) =
          [] :: npSplitAux (none :: rest) 0
            ((nanIndices rest).map (· + 1)) from rfl, hcons]
      · intro p hp
        rcases List.mem_cons.mp hp with hp | hp
        · exact ⟨h, hp, hno⟩
        · exact htl p hp
      · rw [List.nil_append, List.flatten_cons, List.cons_append, hjoin]

/-- The accumulation loop `arrays = arrays + ...` is a `bind`. -/
lemma foldl_split_step (L : List (List (Option ℚ)))
    (acc : List (List (Option ℚ))) :
    L.foldl (fun acc arr =>
      if hasNan arr then acc ++ npSplit arr ((nanIndices arr).map (· + 1))
      else acc ++ [arr]) acc =
    acc ++ L.flatMap (fun arr =>
      if hasNan arr then npSplit arr ((nanIndices arr).map (· + 1))
      else [arr]) := by
  induction L generalizing acc with
  | nil => simp
  | cons arr rest ih =>
      rw [List.foldl_cons, ih, List.flatMap_cons]
      by_cases hn : hasNan arr <;> simp [hn]

/-- Re-splitting a piece that starts with its single `nan` separates the
`nan` singleton from the clean remainder. -/
lemma npSplit_nan_piece (q : List (Option ℚ)) (hq : hasNan q = false) :
    npSplit (none :: q) ((nanIndices (none :: q)).map (· + 1)) =
      [[none], q] := by
  have h0 : nanIndices q = [] := nanIndices_eq_nil_of_no_nan q hq
  rw [show nanIndices (none :: q) = 0 :: (nanIndices q).map (· + 1)
    from rfl, h0]
  rfl

/-- Dropping empty pieces preserves the concatenation. -/
lemma flatten_filter_ne_nil :
    ∀ L : List (List (Option ℚ)),
      (L.filter (fun arr => !arr.isEmpty)).flatten = L.flatten
  | [] => rfl
  | arr :: rest => by
      rw [List.filter_cons]
      by_cases he : arr.isEmpty
      · have : arr = [] := List.isEmpty_iff.mp he
        subst this
        simp [flatten_filter_ne_nil rest]
      · simp only [he, Bool.not_false, if_pos]
        rw [List.flatten_cons, List.flatten_cons,
          flatten_filter_ne_nil rest]

/-- The index pairs built by the counting loop slice the original signal
back into the sections, provided every `nan` section has length 1. -/
lemma buildIndices_spec (sig : List (Option ℚ)) :
    ∀ (L : List (List (Option ℚ))) (count : Nat),
      sig.drop count = L.flatten →
      (∀ arr ∈ L, hasNan arr = true → arr.length = 1) →
      List.Forall₂ (fun (p : Nat × Nat) arr =>
        (sig.drop p.1).take (p.2 - p.1) = arr) (buildIndices count L) L
  | [], _, _, _ => List.Forall₂.nil
  | arr :: rest, count, hdrop, hlen => by
      rw [buildIndices]
      have hpair : (if hasNan arr then
          (count + arr.length - 1, count + arr.length)
          else (count + arr.length - arr.length, count + arr.length)) =
          (count, count + arr.length) := by
        by_cases hn : hasNan arr
        · rw [if_pos hn, hlen arr (by simp) hn,
            show count + 1 - 1 = count by omega]
        · rw [if_neg hn,
            show count + arr.length - arr.length = count by omega]
      rw [hpair]
      refine List.Forall₂.cons ?_ ?_
      · show (sig.drop count).take (count + arr.length - count) = arr
        rw [show count + arr.length - count = arr.length by omega, hdrop,
          List.flatten_cons, List.take_left]
      · refine buildIndices_spec sig rest (count + arr.length) ?_ ?_
        · have hd : sig.drop (count + arr.length) =
              (sig.drop count).drop arr.length := by
            rw [List.drop_drop]
          rw [hd, hdrop, List.flatten_cons, List.drop_left]
        · intro a ha hn
          exact hlen a (List.mem_cons_of_mem arr ha) hn

/-- Re-splitting the `nan`-headed pieces preserves the concatenation and
leaves only `[none]` singletons among the `nan`-carrying sections. -/
lemma flatMap_nan_sections :
    ∀ tl : List (List (Option ℚ)),
      (∀ p ∈ tl, ∃ q, p = none :: q ∧ hasNan q = false) →
      ((tl.flatMap (fun arr =>
          if hasNan arr then npSplit arr ((nanIndices arr).map (· + 1))
          else [arr])).flatten = tl.flatten ∧
        ∀ arr ∈ tl.flatMap (fun arr =>
          if hasNan arr then npSplit arr ((nanIndices arr).map (· + 1))
          else [arr]), hasNan arr = true → arr = [none])
  | [], _ => ⟨rfl, by simp⟩
  | p :: rest, hp => by
      obtain ⟨q, rfl, hq⟩ := hp p (by simp)
      obtain ⟨ih1, ih2⟩ := flatMap_nan_sections rest
        (fun p hp' => hp p (List.mem_cons_of_mem _ hp'))
      have hstep : (if hasNan (none :: q) then
          npSplit (none :: q) ((nanIndices (none :: q)).map (· + 1))
          else [none :: q]) = [[none], q] := by
        rw [if_pos (by simp [hasNan]), npSplit_nan_piece q hq]
      constructor
      · rw [List.flatMap_cons, List.flatten_append, hstep, ih1,
          List.flatten_cons]
        simp
      · intro arr harr
        rw [List.flatMap_cons, hstep] at harr
        rcases List.mem_append.mp harr with hmem | hmem
        · intro hna
          rcases List.mem_cons.mp hmem with hmem | hmem
          · exact hmem
          · rw [List.mem_singleton] at hmem
            subst hmem
            rw [hq] at hna
            cases hna
        · exact ih2 arr hmem

/-- **C10 (amended).**  `split_around_nan` returns index pairs and section
arrays of equal length with `sig[i:j] == arrays[k]` for each pair; every
`nan` section is the singleton `[nan]`; every section of a *nonempty*
input is nonempty (an empty `nan`-free input yields the single empty
section `((0,0), [])`); and a `nan`-free input is returned whole as
`((0, len(sig)), sig)`. -/
theorem split_around_nan_spec (sig : List (Option ℚ)) :
    (split_around_nan sig).1.length = (split_around_nan sig).2.length ∧
    List.Forall₂ (fun (p : Nat × Nat) arr =>
      (sig.drop p.1).take (p.2 - p.1) = arr)
      (split_around_nan sig).1 (split_around_nan sig).2 ∧
    (∀ arr ∈ (split_around_nan sig).2,
      (hasNan arr = true → arr = [none]) ∧ (sig ≠ [] → arr ≠ [])) ∧
    (hasNan sig = false →
      split_around_nan sig = ([(0, sig.length)], [sig])) := by
  by_cases hb : hasNan sig = true
  · obtain ⟨h, tl, heq1, hno, htl, hjoin⟩ := nanSplit_structure sig
    have harr_eq : split_around_nan sig =
        (buildIndices 0 (((h :: tl).flatMap (fun arr =>
          if hasNan arr then npSplit arr ((nanIndices arr).map (· + 1))
          else [arr])).filter (fun arr => !arr.isEmpty)),
        ((h :: tl).flatMap (fun arr =>
          if hasNan arr then npSplit arr ((nanIndices arr).map (· + 1))
          else [arr])).filter (fun arr => !arr.isEmpty)) := by
      simp only [split_around_nan]
      rw [if_pos hb, heq1, foldl_split_step, List.nil_append]
    have hstep_h : (if hasNan h then
        npSplit h ((nanIndices h).map (· + 1)) else [h]) = [h] :=
      if_neg (by rw [hno]; exact Bool.false_ne_true)
    obtain ⟨hsec1, hsec2⟩ := flatMap_nan_sections tl htl
    have hA_flatten : (((h :: tl).flatMap (fun arr =>
        if hasNan arr then npSplit arr ((nanIndices arr).map (· + 1))
        else [arr]))).flatten = sig := by
      rw [List.flatMap_cons, List.flatten_append, hstep_h, hsec1]
      simpa using hjoin
    have hA_class : ∀ arr ∈ (h :: tl).flatMap (fun arr =>
        if hasNan arr then npSplit arr ((nanIndices arr).map (· + 1))
        else [arr]), hasNan arr = true → arr = [none] := by
      intro arr harr hna
      rw [List.flatMap_cons, hstep_h] at harr
      rcases List.mem_append.mp harr with hmem | hmem
      · rw [List.mem_singleton] at hmem
        subst hmem
        rw [hno] at hna
        cases hna
      · exact hsec2 arr hmem hna
    have h2_flatten : ((((h :: tl).flatMap (fun arr =>
        if hasNan arr then npSplit arr ((nanIndices arr).map (· + 1))
        else [arr])).filter (fun arr => !arr.isEmpty))).flatten = sig := by
      rw [flatten_filter_ne_nil]
      exact hA_flatten
    have h2_class : ∀ arr ∈ (((h :: tl).flatMap (fun arr =>
        if hasNan arr then npSplit arr ((nanIndices arr).map (· + 1))
        else [arr])).filter (fun arr => !arr.isEmpty)),
        (hasNan arr = true → arr = [none]) ∧ (sig ≠ [] → arr ≠ []) := by
      intro arr harr
      refine ⟨hA_class arr (List.mem_of_mem_filter harr), fun _ => ?_⟩
      have := (List.mem_filter.mp harr).2
      intro hnil
      subst hnil
      simp at this
    have h2_len1 : ∀ arr ∈ (((h :: tl).flatMap (fun arr =>
        if hasNan arr then npSplit arr ((nanIndices arr).map (· + 1))
        else [arr])).filter (fun arr => !arr.isEmpty)),
        hasNan arr = true → arr.length = 1 := by
      intro arr harr hna
      rw [hA_class arr (List.mem_of_mem_filter harr) hna]
      rfl
    have hforall := buildIndices_spec sig _ 0
      (by rw [List.drop_zero]; exact h2_flatten.symm) h2_len1
    refine ⟨?_, ?_, ?_, fun h0 => by rw [h0] at hb; cases hb⟩
    · rw [harr_eq]
      exact hforall.length_eq
    · rw [harr_eq]
      exact hforall
    · rw [harr_eq]
      exact h2_class
  · have heq : split_around_nan sig = ([(0, sig.length)], [sig]) := by
      rw [split_around_nan, if_neg hb]
    refine ⟨by rw [heq]; rfl, ?_, ?_, fun _ => heq⟩
    · rw [heq]
      refine List.Forall₂.cons ?_ List.Forall₂.nil
      simp
    · rw [heq]
      intro arr harr
      rw [List.mem_singleton] at harr
      subst harr
      exact ⟨fun hna => absurd hna hb, fun hne => hne⟩

/-- Witness for `split_around_nan_spec`: a concrete `nan`-carrying input is
split into `[1]`, `[nan]`, `[2]` with slicing index pairs, and the
conditional clauses are discharged at the `[none]` and `[some 1]`
sections. -/
theorem split_around_nan_spec_witness :
    split_around_nan [some 1, none, some 2] =
      ([(0, 1), (1, 2), (2, 3)], [[some 1], [none], [some 2]]) ∧
    ([none] : List (Option ℚ)) = [none] ∧
    ([some (1 : ℚ)] : List (Option ℚ)) ≠ [] := by
  have h := split_around_nan_spec [some 1, none, some 2]
  refine ⟨by decide, ?_, ?_⟩
  · exact (h.2.2.1 [none] (by decide)).1 rfl
  · exact (h.2.2.1 [some 1] (by decide)).2 (by decide)

/-- **C10 counterexample.**  On the empty (hence `nan`-free) input the code
returns the single pair `(0, 0)` with the empty section, so "every returned
non-`nan` section is non-empty" fails as stated. -/
theorem split_around_nan_empty_input :
    split_around_nan [] = ([(0, 0)], [[]]) ∧
    hasNan [] = false := ⟨rfl, rfl⟩

end BicycleDataProcessor